import Mathlib

/-!
Verification development for the n2 HNSW index core.

The configuration enums are embedded directly from
`src/include/n2/common.h`.  The algorithmic components (neighbor
selector, graph builder, post-processor, query engine) are not shipped
under `src/`; they are modelled from the specification, as marked on
each definition.
-/

namespace n2

/-- `enum class GraphPostProcessing` from `src/include/n2/common.h`:
`SKIP = 0`, `MERGE_LEVEL0 = 1`. -/
inductive GraphPostProcessing where
  | SKIP
  | MERGE_LEVEL0
deriving DecidableEq

/-- The underlying integer value of each `GraphPostProcessing` enumerator,
as written in the source (`SKIP = 0`, `MERGE_LEVEL0 = 1`). -/
def GraphPostProcessing.toInt : GraphPostProcessing → Int
  | .SKIP => 0
  | .MERGE_LEVEL0 => 1

/-- `enum class NeighborSelectingPolicy` from `src/include/n2/common.h`:
`NAIVE = 0`, `HEURISTIC = 1`, `HEURISTIC_SAVE_REMAINS = 2`. -/
inductive NeighborSelectingPolicy where
  | NAIVE
  | HEURISTIC
  | HEURISTIC_SAVE_REMAINS
deriving DecidableEq

/-- The underlying integer value of each `NeighborSelectingPolicy`
enumerator, as written in the source. -/
def NeighborSelectingPolicy.toInt : NeighborSelectingPolicy → Int
  | .NAIVE => 0
  | .HEURISTIC => 1
  | .HEURISTIC_SAVE_REMAINS => 2

/-- `enum class DistanceKind` from `src/include/n2/common.h`:
`UNKNOWN = -1`, `ANGULAR = 0`, `L2 = 1`, `DOT = 2`. -/
inductive DistanceKind where
  | UNKNOWN
  | ANGULAR
  | L2
  | DOT
deriving DecidableEq

/-- The underlying integer value of each `DistanceKind` enumerator, as
written in the source (`UNKNOWN = -1`, `ANGULAR = 0`, `L2 = 1`,
`DOT = 2`). -/
def DistanceKind.toInt : DistanceKind → Int
  | .UNKNOWN => -1
  | .ANGULAR => 0
  | .L2 => 1
  | .DOT => 2

/-- Modelled from the spec: the admission loop of the HEURISTIC neighbor
selector (§4.2), whose implementation is not under `src/`.  `d` is the
configured distance, `t` the target node, `cap` the degree cap for the
level being linked; candidates are consumed in list order (the caller
passes them sorted ascending by distance to `t`), `acc` holds the
already-admitted neighbors in admission order.  A candidate is admitted
exactly when it is closer to the target than to every already-admitted
neighbor, and the loop stops once `cap` neighbors are admitted. -/
def selectHeuristicGo (d : Nat → Nat → Int) (t cap : Nat) :
    List Nat → List Nat → List Nat
  | [], acc => acc
  | c :: cs, acc =>
    if cap ≤ acc.length then acc
    else if ∀ a ∈ acc, d c t < d c a then
      selectHeuristicGo d t cap cs (acc ++ [c])
    else
      selectHeuristicGo d t cap cs acc

/-- Modelled from the spec: the HEURISTIC neighbor selector (§4.2),
starting from an empty admitted set. -/
def selectHeuristic (d : Nat → Nat → Int) (t cap : Nat)
    (cands : List Nat) : List Nat :=
  selectHeuristicGo d t cap cands []

/-- An example squared distance on nodes placed at integer positions
equal to their ids, used to instantiate witness theorems. -/
def dEx (a b : Nat) : Int := ((a : Int) - b) * ((a : Int) - b)

/-- Modelled from the spec: the engine's ranking order, ascending
distance with ties broken by ascending node id, ids being assigned in
insertion order (§4.3 edge case, §4.5 step 3). -/
def rankLE (dq : Nat → Int) (a b : Nat) : Prop :=
  dq a < dq b ∨ (dq a = dq b ∧ a ≤ b)

/-- Strict version of `rankLE`. -/
def rankLT (dq : Nat → Int) (a b : Nat) : Prop :=
  dq a < dq b ∨ (dq a = dq b ∧ a < b)

instance (dq : Nat → Int) (a b : Nat) : Decidable (rankLE dq a b) := by
  unfold rankLE; infer_instance

instance (dq : Nat → Int) (a b : Nat) : Decidable (rankLT dq a b) := by
  unfold rankLT; infer_instance

/-- Insertion into a list kept sorted by `rankLE` (the bounded best-first
priority structure of §4.5, realized as a sorted list). -/
def insRank (dq : Nat → Int) (x : Nat) : List Nat → List Nat
  | [] => [x]
  | y :: ys => if rankLE dq x y then x :: y :: ys else y :: insRank dq x ys

/-- Insertion sort by `rankLE`: ascending distance, ties by id. -/
def sortRank (dq : Nat → Int) (l : List Nat) : List Nat :=
  l.foldr (insRank dq) []

/-- Modelled from the spec: the NAIVE policy (§4.2): keep the closest
`cap` candidates of the ascending-sorted candidate list, nothing more. -/
def selectNaive (cap : Nat) (cands : List Nat) : List Nat := cands.take cap

/-- Modelled from the spec: the admission loop of HEURISTIC_SAVE_REMAINS
(§4.2): same admission rule as HEURISTIC, but candidates rejected by the
diversity test are retained in the overflow list `rem` and used to fill
any remaining capacity when the primary pass admits fewer than `cap`. -/
def selectRemainsGo (d : Nat → Nat → Int) (t cap : Nat) :
    List Nat → List Nat → List Nat → List Nat
  | [], acc, rem => acc ++ rem.take (cap - acc.length)
  | c :: cs, acc, rem =>
    if cap ≤ acc.length then acc
    else if ∀ a ∈ acc, d c t < d c a then
      selectRemainsGo d t cap cs (acc ++ [c]) rem
    else
      selectRemainsGo d t cap cs acc (rem ++ [c])

/-- Modelled from the spec: the HEURISTIC_SAVE_REMAINS neighbor selector
(§4.2), starting from empty admitted and overflow lists. -/
def selectRemains (d : Nat → Nat → Int) (t cap : Nat)
    (cands : List Nat) : List Nat :=
  selectRemainsGo d t cap cands [] []

/-- Modelled from the spec: the Neighbor Selector (§4.2) dispatched on
the configured policy. -/
def selectNeighbors (pol : NeighborSelectingPolicy) (d : Nat → Nat → Int)
    (t cap : Nat) (cands : List Nat) : List Nat :=
  match pol with
  | .NAIVE => selectNaive cap cands
  | .HEURISTIC => selectHeuristic d t cap cands
  | .HEURISTIC_SAVE_REMAINS => selectRemains d t cap cands

/-- Modelled from the spec: the GraphNode Store adjacency (§3):
`g v l` is node `v`'s neighbor list at level `l`. -/
def Graph : Type := Nat → Nat → List Nat

/-- The per-level degree cap of §3: `Mmax0` at level 0, `M` at levels
≥ 1. -/
def capOf (M Mmax0 l : Nat) : Nat := if l = 0 then Mmax0 else M

/-- The degree-bound invariant of §8: every node's adjacency at every
level stays within the level's cap. -/
def degreeInv (M Mmax0 : Nat) (g : Graph) : Prop :=
  ∀ v l, (g v l).length ≤ capOf M Mmax0 l

/-- Modelled from the spec: §4.3 step 4, first half: the new node's own
adjacency at the level being linked becomes the selector's choice among
the candidates, sorted ascending by distance to the new node. -/
def linkSelf (pol : NeighborSelectingPolicy) (d : Nat → Nat → Int)
    (M Mmax0 : Nat) (g : Graph) (n lvl : Nat) (cands : List Nat) : Graph :=
  fun v l =>
    if v = n ∧ l = lvl then
      selectNeighbors pol d n (capOf M Mmax0 lvl)
        (sortRank (fun x => d x n) cands)
    else g v l

/-- Modelled from the spec: §4.3 step 4, second half: each selected
neighbor receives the reciprocal edge to the new node `n`; a neighbor
whose resulting degree would exceed the level cap is instead re-pruned
through the selector over its current neighbors plus `n`. -/
def linkBack (pol : NeighborSelectingPolicy) (d : Nat → Nat → Int)
    (M Mmax0 : Nat) (g : Graph) (n lvl : Nat) (nbrs : List Nat) : Graph :=
  fun v l =>
    if l = lvl ∧ v ∈ nbrs then
      if capOf M Mmax0 lvl < (g v l).length + 1 then
        selectNeighbors pol d v (capOf M Mmax0 lvl)
          (sortRank (fun x => d x v) (g v l ++ [n]))
      else g v l ++ [n]
    else g v l

/-- Modelled from the spec: §4.3 step 4 at a single level, combining the
new node's selected adjacency with reciprocal linking and re-pruning. -/
def linkLevel (pol : NeighborSelectingPolicy) (d : Nat → Nat → Int)
    (M Mmax0 : Nat) (g : Graph) (n lvl : Nat) (cands : List Nat) : Graph :=
  linkBack pol d M Mmax0 (linkSelf pol d M Mmax0 g n lvl cands) n lvl
    (selectNeighbors pol d n (capOf M Mmax0 lvl)
      (sortRank (fun x => d x n) cands))

/-- Set union on adjacency lists, keeping the first list's order and
appending unseen members of the second. -/
def unionList (a b : List Nat) : List Nat :=
  a ++ b.filter (fun x => !(a.contains x))

/-- Modelled from the spec: the §4.4 MERGE_LEVEL0 post-processing merge:
at level 0 every node's adjacency in the primary graph `g` is unioned
with the reverse-order graph `gr`'s and re-pruned through the Neighbor
Selector against the cap `Mmax0` using combined candidate distances;
higher levels are untouched. -/
def mergeLevel0 (pol : NeighborSelectingPolicy) (d : Nat → Nat → Int)
    (Mmax0 : Nat) (g gr : Graph) : Graph :=
  fun v l =>
    if l = 0 then
      selectNeighbors pol d v Mmax0
        (sortRank (fun x => d x v) (unionList (g v 0) (gr v 0)))
    else g v l

/-- Modelled from the spec: one step of the seeded random source (§9),
a linear congruential generator. -/
def lcgStep (s : Nat) : Nat := (s * 1103515245 + 12345) % 4294967296

/-- Modelled from the spec: geometric level sampling (§4.3 step 1) from
the explicit seeded generator; each draw succeeds with probability
`1 / denom` and `fuel` caps the level.  The spec's real-valued parameter
`1/ln M` is replaced by the integer success denominator `denom`,
preserving the geometric shape and seed-determinism. -/
def sampleLevel (denom : Nat) : Nat → Nat → Nat × Nat
  | 0, s => (0, lcgStep s)
  | fuel + 1, s =>
    if lcgStep s % denom = 0 then
      let r := sampleLevel denom fuel (lcgStep s)
      (r.1 + 1, r.2)
    else (0, lcgStep s)

/-- The closest element of a list under the engine ranking (ties to the
earlier list position). -/
def bestNeighbor (dq : Nat → Int) : List Nat → Option Nat
  | [] => none
  | x :: xs =>
    match bestNeighbor dq xs with
    | none => some x
    | some b => if rankLT dq b x then some b else some x

/-- Modelled from the spec: single-candidate hill climbing (§4.3 step 3,
§4.5 step 1): move to the neighbor strictly closer to the query than the
current node, until no improvement; `fuel` bounds the walk. -/
def hillClimb (dq : Nat → Int) (adj : Nat → List Nat) : Nat → Nat → Nat
  | 0, cur => cur
  | fuel + 1, cur =>
    match bestNeighbor dq (adj cur) with
    | none => cur
    | some b => if dq b < dq cur then hillClimb dq adj fuel b else cur

/-- Levels from `hi` down to `lo` inclusive; empty when `hi < lo`. -/
def levelsDown (hi lo : Nat) : List Nat :=
  (List.range' lo (hi + 1 - lo)).reverse

/-- Modelled from the spec: the greedy entry-point descent (§4.3 step 3,
§4.5 step 1): hill climb at each level from `hi` down to `lo`, carrying
the result as the start of the next lower level. -/
def descend (dq : Nat → Int) (g : Graph) (fuel hi lo start : Nat) : Nat :=
  (levelsDown hi lo).foldl
    (fun cur l => hillClimb dq (fun v => g v l) fuel cur) start

/-- One admission step of the beam search (§4.5 step 2): a newly visited
neighbor enters the frontier and the bounded result list when the results
are not yet full or it improves on the worst kept result. -/
def beamAdmit (dq : Nat → Int) (ef : Nat) (st : List Nat × List Nat)
    (nb : Nat) : List Nat × List Nat :=
  if st.2.length < ef then (insRank dq nb st.1, insRank dq nb st.2)
  else
    match st.2.getLast? with
    | none => (st.1, st.2)
    | some w =>
      if rankLT dq nb w then
        (insRank dq nb st.1, (insRank dq nb st.2).take ef)
      else (st.1, st.2)

/-- Stop test of the beam search (§4.5 step 2): the result set is full
and the best remaining frontier candidate is farther than the worst kept
result. -/
def beamStop (dq : Nat → Int) (ef : Nat) (res : List Nat) (c : Nat) : Bool :=
  match res.getLast? with
  | none => false
  | some w => decide (ef ≤ res.length) && decide (rankLT dq w c)

/-- Modelled from the spec: the bounded best-first beam search at one
level (§4.5 step 2; also run with width efConstruction during build,
§4.3 step 4).  Frontier and results are ascending-sorted lists, `visited`
the visited set; `fuel` bounds the iteration count. -/
def beamGo (dq : Nat → Int) (adj : Nat → List Nat) (ef : Nat) :
    Nat → List Nat → List Nat → List Nat → List Nat
  | 0, _, res, _ => res
  | fuel + 1, frontier, res, visited =>
    match frontier with
    | [] => res
    | c :: rest =>
      if beamStop dq ef res c then res
      else
        let nbrs := (adj c).filter fun x => !(visited.contains x)
        let st := nbrs.foldl (beamAdmit dq ef) (rest, res)
        beamGo dq adj ef fuel st.1 st.2 (visited ++ nbrs)

/-- Beam search entered from a single entry point. -/
def beamFrom (dq : Nat → Int) (adj : Nat → List Nat)
    (ef fuel entry : Nat) : List Nat :=
  beamGo dq adj ef fuel [entry] [entry] [entry]

/-- Modelled from the spec: the build-time configuration surface (§6):
max degree `M`, level-0 max degree `Mmax0`, construction beam width
`efCons`, the neighbor selecting policy, and the integer denominator of
the geometric level sampler. -/
structure BuildCfg where
  M : Nat
  Mmax0 : Nat
  efCons : Nat
  policy : NeighborSelectingPolicy
  levelDenom : Nat

/-- Modelled from the spec: the build state (§3): the adjacency store,
the entry point and current maximum level, the ids inserted so far in
insertion order, and the random-source state. -/
structure BuildState where
  graph : Graph
  entry : Nat
  maxLevel : Nat
  inserted : List Nat
  rng : Nat

/-- Modelled from the spec: §4.3 step 4 across levels `topL` down to 0:
at each level a beam search of width efConstruction collects candidates
from the current entry, the level is linked through `linkLevel`, and the
closest candidate is carried as the next level's entry. -/
def linkStep (cfg : BuildCfg) (d : Nat → Nat → Int) (fuel n : Nat)
    (acc : Graph × Nat) (l : Nat) : Graph × Nat :=
  let cands := sortRank (fun x => d x n)
    (beamFrom (fun x => d x n) (fun v => acc.1 v l) cfg.efCons fuel acc.2)
  (linkLevel cfg.policy d cfg.M cfg.Mmax0 acc.1 n l cands,
   match cands.head? with
   | some c => c
   | none => acc.2)

/-- Modelled from the spec: §4.3 step 4 folded over levels `topL` down
to 0. -/
def linkLevels (cfg : BuildCfg) (d : Nat → Nat → Int) (g0 : Graph)
    (fuel n topL ep : Nat) : Graph :=
  ((levelsDown topL 0).foldl (linkStep cfg d fuel n) (g0, ep)).1

/-- Modelled from the spec: one insertion (§4.3): sample a level, handle
the empty graph, otherwise descend from the entry point to level `L + 1`,
link levels `min L maxLevel` down to 0, and promote the new node to entry
point when its sampled level exceeds the current maximum. -/
def insertOne (cfg : BuildCfg) (d : Nat → Nat → Int) (st : BuildState)
    (n : Nat) : BuildState :=
  let r := sampleLevel cfg.levelDenom 32 st.rng
  if st.inserted.isEmpty then
    { graph := st.graph, entry := n, maxLevel := r.1,
      inserted := [n], rng := r.2 }
  else
    let dq := fun x => d x n
    let fuel := st.inserted.length * st.inserted.length + st.inserted.length + 1
    let ep0 := descend dq st.graph fuel st.maxLevel (r.1 + 1) st.entry
    { graph := linkLevels cfg d st.graph fuel n (min r.1 st.maxLevel) ep0,
      entry := if st.maxLevel < r.1 then n else st.entry,
      maxLevel := max st.maxLevel r.1,
      inserted := st.inserted ++ [n],
      rng := r.2 }

/-- Modelled from the spec: the single-threaded build loop, inserting the
given node ids in order starting from an empty graph and the given
seed. -/
def buildOrder (cfg : BuildCfg) (d : Nat → Nat → Int) (seed : Nat)
    (order : List Nat) : BuildState :=
  order.foldl (insertOne cfg d) ⟨fun _ _ => [], 0, 0, [], seed⟩

/-- Modelled from the spec: the L2 distance kernel (§4.1): squared
Euclidean distance, here on integer coordinate vectors. -/
def distL2 (u v : List Int) : Int :=
  (List.zipWith (fun a b => (a - b) * (a - b)) u v).sum

/-- Distance between dataset points by id. -/
def dOfPts (pts : List (List Int)) (i j : Nat) : Int :=
  distL2 (pts.getD i []) (pts.getD j [])

/-- Modelled from the spec: the finalized index read by the Query Engine
(§2, §6): the vectors, the finished graph, the entry point and maximum
level, the node ids in insertion order, and whether `build` completed. -/
structure IndexState where
  pts : List (List Int)
  graph : Graph
  entry : Nat
  maxLevel : Nat
  nodes : List Nat
  built : Bool

/-- Modelled from the spec: the full L2 build (§4.3, §4.4): insert all
points in order; under MERGE_LEVEL0, additionally build a second graph
in reverse insertion order and merge its level-0 edges into the primary
graph through the Neighbor Selector against the cap Mmax0. -/
def buildIndexL2 (cfg : BuildCfg) (post : GraphPostProcessing) (seed : Nat)
    (pts : List (List Int)) : IndexState :=
  let d := dOfPts pts
  let order := List.range pts.length
  let st := buildOrder cfg d seed order
  match post with
  | .SKIP => ⟨pts, st.graph, st.entry, st.maxLevel, st.inserted, true⟩
  | .MERGE_LEVEL0 =>
    let str := buildOrder cfg d seed order.reverse
    ⟨pts, mergeLevel0 cfg.policy d cfg.Mmax0 st.graph str.graph,
     st.entry, st.maxLevel, st.inserted, true⟩

/-- The error kinds surfaced by the external interfaces (§7). -/
inductive N2Error where
  | ConfigurationError
  | DimensionMismatchError
deriving DecidableEq

/-- Modelled from the spec: the query engine proper (§4.5): an empty
graph returns the empty result set; otherwise greedy descent from the
entry point down to level 1, a level-0 beam search of width `ef`, and
the `k` closest results ascending by distance with ties broken by node
insertion order (ids are assigned in insertion order). -/
def searchImpl (idx : IndexState) (q : List Int) (k ef : Nat) :
    List (Nat × Int) :=
  if idx.nodes.isEmpty then []
  else
    let dq := fun v => distL2 q (idx.pts.getD v [])
    let fuel := idx.nodes.length * idx.nodes.length + idx.nodes.length + 1
    let ep := descend dq idx.graph fuel idx.maxLevel 1 idx.entry
    ((sortRank dq (beamFrom dq (fun v => idx.graph v 0) ef fuel ep)).take k).map
      fun v => (v, dq v)

/-- Modelled from the spec: the Query API `search(vector, k, efSearch)`
(§6): fails with ConfigurationError when invoked before `build`
completes or when `efSearch < k`, in both cases before any graph
computation; otherwise runs the query engine. -/
def search (idx : IndexState) (q : List Int) (k ef : Nat) :
    Except N2Error (List (Nat × Int)) :=
  if idx.built = false then .error .ConfigurationError
  else if ef < k then .error .ConfigurationError
  else .ok (searchImpl idx q k ef)

/-- One frontier expansion of level-0 reachability: append every
unreached neighbor of every reached node. -/
def reachStep (g : Graph) (acc : List Nat) : List Nat :=
  acc.foldl (fun r v => r ++ (g v 0).filter fun x => !(r.contains x)) acc

/-- Iterated reachability expansion. -/
def reachAux (g : Graph) : Nat → List Nat → List Nat
  | 0, acc => acc
  | fuel + 1, acc => reachAux g fuel (reachStep g acc)

/-- The number of nodes reachable from `entry` in the level-0 graph
within `fuel` expansion rounds: the connectivity measure of §8. -/
def reachCount (g : Graph) (entry fuel : Nat) : Nat :=
  (reachAux g fuel [entry]).length

end n2

namespace n2

theorem selectHeuristicGo_cons (d : Nat → Nat → Int) (t cap : Nat)
    (c : Nat) (cs acc : List Nat) :
    selectHeuristicGo d t cap (c :: cs) acc =
      if cap ≤ acc.length then acc
      else if ∀ a ∈ acc, d c t < d c a then
        selectHeuristicGo d t cap cs (acc ++ [c])
      else selectHeuristicGo d t cap cs acc := rfl

theorem selectHeuristicGo_append (d : Nat → Nat → Int) (t cap : Nat) :
    ∀ (cs acc : List Nat), ∃ s, s.Sublist cs ∧
      selectHeuristicGo d t cap cs acc = acc ++ s := by
  intro cs
  induction cs with
  | nil =>
    intro acc
    exact ⟨[], List.Sublist.refl _, by simp [selectHeuristicGo]⟩
  | cons c cs ih =>
    intro acc
    rw [selectHeuristicGo_cons]
    by_cases h1 : cap ≤ acc.length
    · exact ⟨[], by simp, by simp [h1]⟩
    · by_cases h2 : ∀ a ∈ acc, d c t < d c a
      · obtain ⟨s, hs, he⟩ := ih (acc ++ [c])
        refine ⟨c :: s, List.Sublist.cons₂ _ hs, ?_⟩
        rw [if_neg h1, if_pos h2, he]
        simp
      · obtain ⟨s, hs, he⟩ := ih acc
        exact ⟨s, List.Sublist.cons _ hs, by rw [if_neg h1, if_neg h2, he]⟩

theorem length_selectHeuristicGo (d : Nat → Nat → Int) (t cap : Nat) :
    ∀ (cs acc : List Nat), acc.length ≤ cap →
      (selectHeuristicGo d t cap cs acc).length ≤ cap := by
  intro cs
  induction cs with
  | nil => intro acc h; simpa [selectHeuristicGo] using h
  | cons c cs ih =>
    intro acc h
    rw [selectHeuristicGo_cons]
    by_cases h1 : cap ≤ acc.length
    · simpa [h1] using h
    · by_cases h2 : ∀ a ∈ acc, d c t < d c a
      · rw [if_neg h1, if_pos h2]
        refine ih (acc ++ [c]) ?_
        have : acc.length < cap := Nat.lt_of_not_le h1
        simpa using this
      · rw [if_neg h1, if_neg h2]
        exact ih acc h

theorem pairwise_selectHeuristicGo (d : Nat → Nat → Int) (t cap : Nat) :
    ∀ (cs acc : List Nat),
      acc.Pairwise (fun a b => d b t < d b a) →
      (selectHeuristicGo d t cap cs acc).Pairwise
        (fun a b => d b t < d b a) := by
  intro cs
  induction cs with
  | nil => intro acc h; simpa [selectHeuristicGo] using h
  | cons c cs ih =>
    intro acc h
    rw [selectHeuristicGo_cons]
    by_cases h1 : cap ≤ acc.length
    · simpa [h1] using h
    · by_cases h2 : ∀ a ∈ acc, d c t < d c a
      · rw [if_neg h1, if_pos h2]
        refine ih (acc ++ [c]) ?_
        rw [List.pairwise_append]
        refine ⟨h, by simp, ?_⟩
        intro a ha b hb
        rw [List.mem_singleton] at hb
        subst hb
        exact h2 a ha
      · rw [if_neg h1, if_neg h2]
        exact ih acc h

theorem selectHeuristicGo_complete (d : Nat → Nat → Int) (t cap : Nat) :
    ∀ (cs acc : List Nat),
      (selectHeuristicGo d t cap cs acc).length < cap →
      ∀ c ∈ cs, c ∈ selectHeuristicGo d t cap cs acc ∨
        ∃ a ∈ selectHeuristicGo d t cap cs acc, ¬ (d c t < d c a) := by
  intro cs
  induction cs with
  | nil => intro acc _ c hc; simp at hc
  | cons c0 cs ih =>
    intro acc hlen c hc
    rw [selectHeuristicGo_cons] at hlen ⊢
    by_cases h1 : cap ≤ acc.length
    · rw [if_pos h1] at hlen; omega
    · by_cases h2 : ∀ a ∈ acc, d c0 t < d c0 a
      · rw [if_neg h1, if_pos h2] at hlen ⊢
        rcases List.mem_cons.mp hc with rfl | hc'
        · left
          obtain ⟨s, _, he⟩ := selectHeuristicGo_append d t cap cs (acc ++ [c])
          rw [he]
          simp
        · exact ih (acc ++ [c0]) hlen c hc'
      · rw [if_neg h1, if_neg h2] at hlen ⊢
        rcases List.mem_cons.mp hc with rfl | hc'
        · right
          push_neg at h2
          obtain ⟨a, ha, hda⟩ := h2
          obtain ⟨s, _, he⟩ := selectHeuristicGo_append d t cap cs acc
          exact ⟨a, by rw [he]; exact List.mem_append_left _ ha, not_lt.mpr hda⟩
        · exact ih acc hlen c hc'

theorem length_selectHeuristic (d : Nat → Nat → Int) (t cap : Nat)
    (cands : List Nat) : (selectHeuristic d t cap cands).length ≤ cap :=
  length_selectHeuristicGo d t cap cands [] (Nat.zero_le _)

theorem selectHeuristic_sublist (d : Nat → Nat → Int) (t cap : Nat)
    (cands : List Nat) : (selectHeuristic d t cap cands).Sublist cands := by
  obtain ⟨s, hs, he⟩ := selectHeuristicGo_append d t cap cands []
  rw [selectHeuristic, he]
  simpa using hs

theorem rankLE_total (dq : Nat → Int) (a b : Nat) :
    rankLE dq a b ∨ rankLE dq b a := by
  unfold rankLE
  rcases lt_trichotomy (dq a) (dq b) with h | h | h
  · exact Or.inl (Or.inl h)
  · rcases Nat.le_total a b with h2 | h2
    · exact Or.inl (Or.inr ⟨h, h2⟩)
    · exact Or.inr (Or.inr ⟨h.symm, h2⟩)
  · exact Or.inr (Or.inl h)

theorem rankLE_trans (dq : Nat → Int) {a b c : Nat} :
    rankLE dq a b → rankLE dq b c → rankLE dq a c := by
  unfold rankLE
  rintro (h1 | ⟨e1, l1⟩) (h2 | ⟨e2, l2⟩)
  · exact Or.inl (lt_trans h1 h2)
  · exact Or.inl (lt_of_lt_of_le h1 (le_of_eq e2))
  · exact Or.inl (lt_of_le_of_lt (le_of_eq e1) h2)
  · exact Or.inr ⟨e1.trans e2, le_trans l1 l2⟩

theorem mem_insRank (dq : Nat → Int) (x a : Nat) :
    ∀ l : List Nat, a ∈ insRank dq x l ↔ a = x ∨ a ∈ l := by
  intro l
  induction l with
  | nil => simp [insRank]
  | cons y ys ih =>
    by_cases h : rankLE dq x y
    · simp [insRank, h]
    · simp [insRank, h, ih]
      tauto

theorem pairwise_insRank (dq : Nat → Int) (x : Nat) :
    ∀ l : List Nat, l.Pairwise (rankLE dq) →
      (insRank dq x l).Pairwise (rankLE dq) := by
  intro l
  induction l with
  | nil => intro _; simp [insRank]
  | cons y ys ih =>
    intro h
    rw [List.pairwise_cons] at h
    by_cases hxy : rankLE dq x y
    · rw [insRank, if_pos hxy, List.pairwise_cons]
      refine ⟨?_, List.pairwise_cons.mpr h⟩
      intro b hb
      rcases List.mem_cons.mp hb with rfl | hb'
      · exact hxy
      · exact rankLE_trans dq hxy (h.1 b hb')
    · rw [insRank, if_neg hxy, List.pairwise_cons]
      refine ⟨?_, ih h.2⟩
      intro b hb
      rcases (mem_insRank dq x b ys).mp hb with rfl | hb'
      · rcases rankLE_total dq b y with h1 | h1
        · exact absurd h1 hxy
        · exact h1
      · exact h.1 b hb'

theorem pairwise_sortRank (dq : Nat → Int) (l : List Nat) :
    (sortRank dq l).Pairwise (rankLE dq) := by
  induction l with
  | nil => simp [sortRank]
  | cons x xs ih => exact pairwise_insRank dq x _ ih

theorem mem_sortRank (dq : Nat → Int) (a : Nat) (l : List Nat) :
    a ∈ sortRank dq l ↔ a ∈ l := by
  induction l with
  | nil => simp [sortRank]
  | cons x xs ih =>
    rw [sortRank, List.foldr_cons, mem_insRank]
    rw [sortRank] at ih
    rw [ih]
    simp

theorem length_selectRemainsGo (d : Nat → Nat → Int) (t cap : Nat) :
    ∀ (cs acc rem : List Nat), acc.length ≤ cap →
      (selectRemainsGo d t cap cs acc rem).length ≤ cap := by
  intro cs
  induction cs with
  | nil =>
    intro acc rem h
    simp only [selectRemainsGo, List.length_append, List.length_take]
    omega
  | cons c cs ih =>
    intro acc rem h
    rw [selectRemainsGo]
    by_cases h1 : cap ≤ acc.length
    · simpa [h1] using h
    · by_cases h2 : ∀ a ∈ acc, d c t < d c a
      · rw [if_neg h1, if_pos h2]
        refine ih (acc ++ [c]) rem ?_
        have : acc.length < cap := Nat.lt_of_not_le h1
        simpa using this
      · rw [if_neg h1, if_neg h2]
        exact ih acc (rem ++ [c]) h

theorem mem_selectRemainsGo (d : Nat → Nat → Int) (t cap : Nat) :
    ∀ (cs acc rem : List Nat) (x : Nat),
      x ∈ selectRemainsGo d t cap cs acc rem →
      x ∈ acc ∨ x ∈ rem ∨ x ∈ cs := by
  intro cs
  induction cs with
  | nil =>
    intro acc rem x hx
    rw [selectRemainsGo] at hx
    rcases List.mem_append.mp hx with h | h
    · exact Or.inl h
    · exact Or.inr (Or.inl ((List.take_sublist _ _).subset h))
  | cons c cs ih =>
    intro acc rem x hx
    rw [selectRemainsGo] at hx
    by_cases h1 : cap ≤ acc.length
    · rw [if_pos h1] at hx
      exact Or.inl hx
    · by_cases h2 : ∀ a ∈ acc, d c t < d c a
      · rw [if_neg h1, if_pos h2] at hx
        rcases ih (acc ++ [c]) rem x hx with h | h | h
        · rcases List.mem_append.mp h with h' | h'
          · exact Or.inl h'
          · rw [List.mem_singleton] at h'
            exact Or.inr (Or.inr (h' ▸ List.mem_cons_self c cs))
        · exact Or.inr (Or.inl h)
        · exact Or.inr (Or.inr (List.mem_cons_of_mem c h))
      · rw [if_neg h1, if_neg h2] at hx
        rcases ih acc (rem ++ [c]) x hx with h | h | h
        · exact Or.inl h
        · rcases List.mem_append.mp h with h' | h'
          · exact Or.inr (Or.inl h')
          · rw [List.mem_singleton] at h'
            exact Or.inr (Or.inr (h' ▸ List.mem_cons_self c cs))
        · exact Or.inr (Or.inr (List.mem_cons_of_mem c h))

theorem length_selectNeighbors (pol : NeighborSelectingPolicy)
    (d : Nat → Nat → Int) (t cap : Nat) (cands : List Nat) :
    (selectNeighbors pol d t cap cands).length ≤ cap := by
  cases pol with
  | NAIVE =>
    simp only [selectNeighbors, selectNaive, List.length_take]
    omega
  | HEURISTIC => exact length_selectHeuristic d t cap cands
  | HEURISTIC_SAVE_REMAINS =>
    exact length_selectRemainsGo d t cap cands [] [] (Nat.zero_le _)

theorem mem_selectNeighbors (pol : NeighborSelectingPolicy)
    (d : Nat → Nat → Int) (t cap : Nat) (cands : List Nat) (x : Nat)
    (hx : x ∈ selectNeighbors pol d t cap cands) : x ∈ cands := by
  cases pol with
  | NAIVE => exact (List.take_sublist _ _).subset hx
  | HEURISTIC => exact (selectHeuristic_sublist d t cap cands).subset hx
  | HEURISTIC_SAVE_REMAINS =>
    rcases mem_selectRemainsGo d t cap cands [] [] x hx with h | h | h
    · simp at h
    · simp at h
    · exact h

theorem degreeInv_linkSelf (pol : NeighborSelectingPolicy)
    (d : Nat → Nat → Int) (M Mmax0 : Nat) (g : Graph) (n lvl : Nat)
    (cands : List Nat) (hg : degreeInv M Mmax0 g) :
    degreeInv M Mmax0 (linkSelf pol d M Mmax0 g n lvl cands) := by
  intro v l
  unfold linkSelf
  by_cases h : v = n ∧ l = lvl
  · rw [if_pos h, h.2]
    exact length_selectNeighbors pol d n (capOf M Mmax0 lvl) _
  · rw [if_neg h]
    exact hg v l

theorem degreeInv_linkBack (pol : NeighborSelectingPolicy)
    (d : Nat → Nat → Int) (M Mmax0 : Nat) (g : Graph) (n lvl : Nat)
    (nbrs : List Nat) (hg : degreeInv M Mmax0 g) :
    degreeInv M Mmax0 (linkBack pol d M Mmax0 g n lvl nbrs) := by
  intro v l
  unfold linkBack
  by_cases h : l = lvl ∧ v ∈ nbrs
  · rw [if_pos h]
    by_cases h2 : capOf M Mmax0 lvl < (g v l).length + 1
    · rw [if_pos h2, h.1]
      exact length_selectNeighbors pol d v (capOf M Mmax0 lvl) _
    · rw [if_neg h2, h.1]
      rw [h.1] at h2
      simp only [List.length_append, List.length_singleton]
      omega
  · rw [if_neg h]
    exact hg v l

theorem degreeInv_linkLevel (pol : NeighborSelectingPolicy)
    (d : Nat → Nat → Int) (M Mmax0 : Nat) (g : Graph) (n lvl : Nat)
    (cands : List Nat) (hg : degreeInv M Mmax0 g) :
    degreeInv M Mmax0 (linkLevel pol d M Mmax0 g n lvl cands) :=
  degreeInv_linkBack pol d M Mmax0 _ n lvl _
    (degreeInv_linkSelf pol d M Mmax0 g n lvl cands hg)

theorem degreeInv_mergeLevel0 (pol : NeighborSelectingPolicy)
    (d : Nat → Nat → Int) (M Mmax0 : Nat) (g gr : Graph)
    (hg : degreeInv M Mmax0 g) :
    degreeInv M Mmax0 (mergeLevel0 pol d Mmax0 g gr) := by
  intro v l
  unfold mergeLevel0
  by_cases h : l = 0
  · rw [if_pos h, h]
    have := length_selectNeighbors pol d v Mmax0
      (sortRank (fun x => d x v) (unionList (g v 0) (gr v 0)))
    simpa [capOf] using this
  · rw [if_neg h]
    exact hg v l

theorem degreeInv_linkStep_fold (cfg : BuildCfg) (d : Nat → Nat → Int)
    (fuel n : Nat) :
    ∀ (ls : List Nat) (p : Graph × Nat),
      degreeInv cfg.M cfg.Mmax0 p.1 →
      degreeInv cfg.M cfg.Mmax0 ((ls.foldl (linkStep cfg d fuel n) p).1) := by
  intro ls
  induction ls with
  | nil => intro p h; simpa using h
  | cons l ls ih =>
    intro p h
    rw [List.foldl_cons]
    refine ih _ ?_
    exact degreeInv_linkLevel cfg.policy d cfg.M cfg.Mmax0 p.1 n l _ h

theorem degreeInv_linkLevels (cfg : BuildCfg) (d : Nat → Nat → Int)
    (g0 : Graph) (fuel n topL ep : Nat)
    (hg : degreeInv cfg.M cfg.Mmax0 g0) :
    degreeInv cfg.M cfg.Mmax0 (linkLevels cfg d g0 fuel n topL ep) :=
  degreeInv_linkStep_fold cfg d fuel n (levelsDown topL 0) (g0, ep) hg

theorem degreeInv_insertOne (cfg : BuildCfg) (d : Nat → Nat → Int)
    (st : BuildState) (n : Nat)
    (hg : degreeInv cfg.M cfg.Mmax0 st.graph) :
    degreeInv cfg.M cfg.Mmax0 (insertOne cfg d st n).graph := by
  unfold insertOne
  by_cases hb : st.inserted.isEmpty
  · simpa [hb] using hg
  · simp only [hb, Bool.false_eq_true, if_false]
    exact degreeInv_linkLevels cfg d st.graph _ n _ _ hg

theorem degreeInv_insert_fold (cfg : BuildCfg) (d : Nat → Nat → Int) :
    ∀ (order : List Nat) (st : BuildState),
      degreeInv cfg.M cfg.Mmax0 st.graph →
      degreeInv cfg.M cfg.Mmax0
        ((order.foldl (insertOne cfg d) st).graph) := by
  intro order
  induction order with
  | nil => intro st h; simpa using h
  | cons n order ih =>
    intro st h
    rw [List.foldl_cons]
    exact ih _ (degreeInv_insertOne cfg d st n h)

theorem degreeInv_empty (M Mmax0 : Nat) :
    degreeInv M Mmax0 (fun _ _ => []) :=
  fun _ _ => Nat.zero_le _

theorem degreeInv_buildOrder (cfg : BuildCfg) (d : Nat → Nat → Int)
    (seed : Nat) (order : List Nat) :
    degreeInv cfg.M cfg.Mmax0 (buildOrder cfg d seed order).graph :=
  degreeInv_insert_fold cfg d order _ (degreeInv_empty cfg.M cfg.Mmax0)

theorem degreeInv_buildIndexL2 (cfg : BuildCfg)
    (post : GraphPostProcessing) (seed : Nat) (pts : List (List Int)) :
    degreeInv cfg.M cfg.Mmax0 (buildIndexL2 cfg post seed pts).graph := by
  cases post with
  | SKIP =>
    simpa [buildIndexL2] using
      degreeInv_buildOrder cfg (dOfPts pts) seed (List.range pts.length)
  | MERGE_LEVEL0 =>
    simpa [buildIndexL2] using
      degreeInv_mergeLevel0 cfg.policy (dOfPts pts) cfg.M cfg.Mmax0 _ _
        (degreeInv_buildOrder cfg (dOfPts pts) seed (List.range pts.length))

theorem pairwise_searchImpl (idx : IndexState) (q : List Int)
    (k ef : Nat) :
    (searchImpl idx q k ef).Pairwise
      (fun a b => a.2 < b.2 ∨ (a.2 = b.2 ∧ a.1 ≤ b.1)) := by
  unfold searchImpl
  by_cases h : idx.nodes.isEmpty
  · simp [h]
  · simp only [h, Bool.false_eq_true, if_false]
    rw [List.pairwise_map]
    refine List.Pairwise.imp ?_
      (List.Pairwise.sublist (List.take_sublist k _)
        (pairwise_sortRank _ _))
    intro a b hab
    exact hab

end n2

open n2

/-- C1 (counterexample): the claim that every value of `DistanceKind` is
one of `ANGULAR`, `L2`, `DOT` is false: the source declares a fourth
enumerator `UNKNOWN = -1`, which is none of the three. -/
theorem distanceKind_unknown_not_a_metric :
    ¬ (DistanceKind.UNKNOWN = DistanceKind.ANGULAR ∨
       DistanceKind.UNKNOWN = DistanceKind.L2 ∨
       DistanceKind.UNKNOWN = DistanceKind.DOT) := by
  decide

/-- C1 (amended): every value of the `DistanceKind` type is one of
exactly the four enumerators `UNKNOWN`, `ANGULAR`, `L2`, `DOT`; the
metric-naming values are `ANGULAR`, `L2` and `DOT`, and `UNKNOWN` is a
fourth representable value that names no metric. -/
theorem distanceKind_exhaustive (k : DistanceKind) :
    k = DistanceKind.UNKNOWN ∨ k = DistanceKind.ANGULAR ∨
    k = DistanceKind.L2 ∨ k = DistanceKind.DOT := by
  cases k <;> simp

/-- C2: every value of the `NeighborSelectingPolicy` type is one of
exactly the three enumerators `NAIVE`, `HEURISTIC`,
`HEURISTIC_SAVE_REMAINS`; no other policy is representable. -/
theorem neighborSelectingPolicy_exhaustive (p : NeighborSelectingPolicy) :
    p = NeighborSelectingPolicy.NAIVE ∨
    p = NeighborSelectingPolicy.HEURISTIC ∨
    p = NeighborSelectingPolicy.HEURISTIC_SAVE_REMAINS := by
  cases p <;> simp

/-- C3: every value of the `GraphPostProcessing` type is one of exactly
the two enumerators `SKIP` and `MERGE_LEVEL0`; no other mode is
representable. -/
theorem graphPostProcessing_exhaustive (m : GraphPostProcessing) :
    m = GraphPostProcessing.SKIP ∨ m = GraphPostProcessing.MERGE_LEVEL0 := by
  cases m <;> simp

/-- C4: the enums carry the fixed underlying integer encodings written
in `src/include/n2/common.h`, those encodings are pairwise distinct
within each enum, and `DistanceKind` admits the extra value `UNKNOWN`
outside `{ANGULAR, L2, DOT}`. -/
theorem enum_encodings :
    GraphPostProcessing.toInt .SKIP = 0 ∧
    GraphPostProcessing.toInt .MERGE_LEVEL0 = 1 ∧
    NeighborSelectingPolicy.toInt .NAIVE = 0 ∧
    NeighborSelectingPolicy.toInt .HEURISTIC = 1 ∧
    NeighborSelectingPolicy.toInt .HEURISTIC_SAVE_REMAINS = 2 ∧
    DistanceKind.toInt .UNKNOWN = -1 ∧
    DistanceKind.toInt .ANGULAR = 0 ∧
    DistanceKind.toInt .L2 = 1 ∧
    DistanceKind.toInt .DOT = 2 ∧
    (∀ x y : GraphPostProcessing, x.toInt = y.toInt → x = y) ∧
    (∀ x y : NeighborSelectingPolicy, x.toInt = y.toInt → x = y) ∧
    (∀ x y : DistanceKind, x.toInt = y.toInt → x = y) ∧
    (DistanceKind.UNKNOWN ≠ .ANGULAR ∧ DistanceKind.UNKNOWN ≠ .L2 ∧
     DistanceKind.UNKNOWN ≠ .DOT) := by
  refine ⟨rfl, rfl, rfl, rfl, rfl, rfl, rfl, rfl, rfl, ?_, ?_, ?_, by decide⟩
  · intro x y h; cases x <;> cases y <;> first | rfl | exact absurd h (by decide)
  · intro x y h; cases x <;> cases y <;> first | rfl | exact absurd h (by decide)
  · intro x y h; cases x <;> cases y <;> first | rfl | exact absurd h (by decide)

/-- C5: for every target, every candidate list sorted ascending by
distance to the target, and every cap, the HEURISTIC selector returns at
most `cap` neighbors, taken from the candidates in ascending-distance
order (a sublist, hence itself sorted ascending); each admitted neighbor
is closer to the target than to every neighbor admitted before it; and
when the pass ends below `cap` (so the loop never stopped early), every
non-admitted candidate was rejected because it is not closer to the
target than some admitted neighbor. -/
theorem heuristic_selector_spec (d : Nat → Nat → Int) (t cap : Nat)
    (cands : List Nat)
    (hsorted : cands.Pairwise (fun a b => d a t ≤ d b t)) :
    (n2.selectHeuristic d t cap cands).length ≤ cap ∧
    (n2.selectHeuristic d t cap cands).Sublist cands ∧
    (n2.selectHeuristic d t cap cands).Pairwise (fun a b => d a t ≤ d b t) ∧
    (n2.selectHeuristic d t cap cands).Pairwise (fun a b => d b t < d b a) ∧
    ((n2.selectHeuristic d t cap cands).length < cap →
      ∀ c ∈ cands, c ∈ n2.selectHeuristic d t cap cands ∨
        ∃ a ∈ n2.selectHeuristic d t cap cands, ¬ (d c t < d c a)) :=
  ⟨n2.length_selectHeuristic d t cap cands,
   n2.selectHeuristic_sublist d t cap cands,
   List.Pairwise.sublist (n2.selectHeuristic_sublist d t cap cands) hsorted,
   n2.pairwise_selectHeuristicGo d t cap cands [] (by simp),
   fun h c hc => n2.selectHeuristicGo_complete d t cap cands [] h c hc⟩

/-- C5 witness: the HEURISTIC selector evaluated at a concrete sorted
candidate list with target 0, cap 2, squared distances on the line. -/
theorem heuristic_selector_spec_witness :
    ([1, 2, 5] : List Nat).Pairwise (fun a b => n2.dEx a 0 ≤ n2.dEx b 0) ∧
    ((n2.selectHeuristic n2.dEx 0 2 [1, 2, 5]).length ≤ 2 ∧
     (n2.selectHeuristic n2.dEx 0 2 [1, 2, 5]).Sublist [1, 2, 5] ∧
     (n2.selectHeuristic n2.dEx 0 2 [1, 2, 5]).Pairwise
        (fun a b => n2.dEx a 0 ≤ n2.dEx b 0) ∧
     (n2.selectHeuristic n2.dEx 0 2 [1, 2, 5]).Pairwise
        (fun a b => n2.dEx b 0 < n2.dEx b a) ∧
     ((n2.selectHeuristic n2.dEx 0 2 [1, 2, 5]).length < 2 →
       ∀ c ∈ ([1, 2, 5] : List Nat),
         c ∈ n2.selectHeuristic n2.dEx 0 2 [1, 2, 5] ∨
         ∃ a ∈ n2.selectHeuristic n2.dEx 0 2 [1, 2, 5],
           ¬ (n2.dEx c 0 < n2.dEx c a))) :=
  ⟨by decide, heuristic_selector_spec n2.dEx 0 2 [1, 2, 5] (by decide)⟩

/-- C6: if every adjacency list of the build state respects the
per-level caps (at most `Mmax0` at level 0, at most `M` at levels ≥ 1),
then after one more insertion all lists still do, after a MERGE_LEVEL0
post-processing merge all lists still do, and the graph of any completed
`buildIndexL2` build satisfies the caps at every node and level. -/
theorem degree_caps_hold (cfg : BuildCfg) (d : Nat → Nat → Int)
    (st : BuildState) (n : Nat)
    (hg : degreeInv cfg.M cfg.Mmax0 st.graph) :
    (∀ v l, 1 ≤ l →
        ((insertOne cfg d st n).graph v l).length ≤ cfg.M) ∧
    (∀ v, ((insertOne cfg d st n).graph v 0).length ≤ cfg.Mmax0) ∧
    (∀ (pol : NeighborSelectingPolicy) (gr : Graph) (v : Nat),
        (mergeLevel0 pol d cfg.Mmax0 st.graph gr v 0).length ≤ cfg.Mmax0 ∧
        ∀ l, 1 ≤ l →
          (mergeLevel0 pol d cfg.Mmax0 st.graph gr v l).length ≤ cfg.M) ∧
    (∀ (post : GraphPostProcessing) (seed : Nat) (pts : List (List Int))
        (v : Nat),
        ((buildIndexL2 cfg post seed pts).graph v 0).length ≤ cfg.Mmax0 ∧
        ∀ l, 1 ≤ l →
          ((buildIndexL2 cfg post seed pts).graph v l).length ≤ cfg.M) := by
  have hins := degreeInv_insertOne cfg d st n hg
  refine ⟨?_, ?_, ?_, ?_⟩
  · intro v l hl
    have := hins v l
    rwa [capOf, if_neg (by omega)] at this
  · intro v
    have := hins v 0
    rwa [capOf, if_pos rfl] at this
  · intro pol gr v
    have hm := degreeInv_mergeLevel0 pol d cfg.M cfg.Mmax0 st.graph gr hg
    refine ⟨?_, ?_⟩
    · have := hm v 0
      rwa [capOf, if_pos rfl] at this
    · intro l hl
      have := hm v l
      rwa [capOf, if_neg (by omega)] at this
  · intro post seed pts v
    have hb := degreeInv_buildIndexL2 cfg post seed pts
    refine ⟨?_, ?_⟩
    · have := hb v 0
      rwa [capOf, if_pos rfl] at this
    · intro l hl
      have := hb v l
      rwa [capOf, if_neg (by omega)] at this

/-- C6 witness: the degree-cap preservation applied to the empty build
state with `M = 2`, `Mmax0 = 4`, inserting node 0. -/
theorem degree_caps_hold_witness :
    degreeInv 2 4 (fun _ _ => []) ∧
    ((∀ v l, 1 ≤ l →
        ((insertOne ⟨2, 4, 2, .HEURISTIC, 7⟩ dEx
            ⟨fun _ _ => [], 0, 0, [], 1⟩ 0).graph v l).length ≤ 2) ∧
     (∀ v, ((insertOne ⟨2, 4, 2, .HEURISTIC, 7⟩ dEx
            ⟨fun _ _ => [], 0, 0, [], 1⟩ 0).graph v 0).length ≤ 4) ∧
     (∀ (pol : NeighborSelectingPolicy) (gr : Graph) (v : Nat),
        (mergeLevel0 pol dEx 4 (fun _ _ => []) gr v 0).length ≤ 4 ∧
        ∀ l, 1 ≤ l →
          (mergeLevel0 pol dEx 4 (fun _ _ => []) gr v l).length ≤ 2) ∧
     (∀ (post : GraphPostProcessing) (seed : Nat) (pts : List (List Int))
        (v : Nat),
        ((buildIndexL2 ⟨2, 4, 2, .HEURISTIC, 7⟩ post seed pts).graph
            v 0).length ≤ 4 ∧
        ∀ l, 1 ≤ l →
          ((buildIndexL2 ⟨2, 4, 2, .HEURISTIC, 7⟩ post seed pts).graph
              v l).length ≤ 2)) :=
  ⟨degreeInv_empty 2 4,
   degree_caps_hold ⟨2, 4, 2, .HEURISTIC, 7⟩ dEx
     ⟨fun _ _ => [], 0, 0, [], 1⟩ 0 (degreeInv_empty 2 4)⟩

/-- C7: `search(vector, k, efSearch)` fails with ConfigurationError when
`efSearch < k` or when invoked on an index whose build has not
completed; in the model the guards precede every graph computation. -/
theorem search_config_guard (idx : IndexState) (q : List Int) (k ef : Nat)
    (h : ef < k ∨ idx.built = false) :
    search idx q k ef = .error .ConfigurationError := by
  rcases h with h | h
  · unfold search
    by_cases hb : idx.built = false
    · rw [if_pos hb]
    · rw [if_neg hb, if_pos h]
  · simp [search, h]

/-- C7 witness: a not-yet-built index with `efSearch < k` is rejected. -/
theorem search_config_guard_witness :
    ((1 : Nat) < 2 ∨
      (IndexState.mk [] (fun _ _ => []) 0 0 [] false).built = false) ∧
    search (IndexState.mk [] (fun _ _ => []) 0 0 [] false) [0] 2 1 =
      .error .ConfigurationError :=
  ⟨Or.inl (by decide),
   search_config_guard (IndexState.mk [] (fun _ _ => []) 0 0 [] false)
     [0] 2 1 (Or.inl (by decide))⟩

/-- C8: querying a built index that contains no inserted vectors, with
`efSearch ≥ k`, returns the empty result set rather than an error. -/
theorem search_empty_index (idx : IndexState) (q : List Int) (k ef : Nat)
    (hb : idx.built = true) (hk : k ≤ ef) (hn : idx.nodes = []) :
    search idx q k ef = .ok [] := by
  unfold search
  rw [hb]
  rw [if_neg (by simp), if_neg (Nat.not_lt.mpr hk)]
  unfold searchImpl
  rw [hn]
  simp

/-- C8 witness: the empty built index queried with `k = 1`,
`efSearch = 2` returns the empty result. -/
theorem search_empty_index_witness :
    (IndexState.mk [] (fun _ _ => []) 0 0 [] true).built = true ∧
    (1 : Nat) ≤ 2 ∧
    (IndexState.mk [] (fun _ _ => []) 0 0 [] true).nodes = [] ∧
    search (IndexState.mk [] (fun _ _ => []) 0 0 [] true) [0] 1 2 =
      .ok [] :=
  ⟨rfl, by decide, rfl,
   search_empty_index (IndexState.mk [] (fun _ _ => []) 0 0 [] true)
     [0] 1 2 rfl (by decide) rfl⟩

/-- C9: the model build and query are pure functions of the inputs, the
seed and the configuration, so a single-threaded rebuild with the same
seed yields the identical index (identical adjacency at every node and
level) and repeated queries return identical results; and every query
result list is ordered by ascending distance with exact-distance ties
broken by ascending node id, ids being assigned in insertion order. -/
theorem build_and_query_deterministic (cfg : BuildCfg)
    (post : GraphPostProcessing) (seed : Nat) (pts : List (List Int))
    (q : List Int) (k ef : Nat) (idx : IndexState) :
    buildIndexL2 cfg post seed pts = buildIndexL2 cfg post seed pts ∧
    search (buildIndexL2 cfg post seed pts) q k ef =
      search (buildIndexL2 cfg post seed pts) q k ef ∧
    (searchImpl idx q k ef).Pairwise
      (fun a b => a.2 < b.2 ∨ (a.2 = b.2 ∧ a.1 ≤ b.1)) :=
  ⟨rfl, rfl, pairwise_searchImpl idx q k ef⟩

/-- C10 (counterexample): MERGE_LEVEL0 can strictly decrease level-0
connectivity.  With `M = 1`, `Mmax0 = 1`, `efConstruction = 3`, the
HEURISTIC policy, and the four one-dimensional points 0, 10, 6, 5
(inserted in that order), the SKIP build reaches all 4 nodes from the
entry point at level 0, while the MERGE_LEVEL0 build of the same dataset
reaches only 3: re-pruning the unioned edge lists against `Mmax0` drops
a load-bearing primary edge. -/
theorem merge_decreases_connectivity_cex :
    reachCount
      (buildIndexL2 ⟨1, 1, 3, .HEURISTIC, 1000003⟩ .MERGE_LEVEL0 12345
        [[0], [10], [6], [5]]).graph
      (buildIndexL2 ⟨1, 1, 3, .HEURISTIC, 1000003⟩ .MERGE_LEVEL0 12345
        [[0], [10], [6], [5]]).entry 4 <
    reachCount
      (buildIndexL2 ⟨1, 1, 3, .HEURISTIC, 1000003⟩ .SKIP 12345
        [[0], [10], [6], [5]]).graph
      (buildIndexL2 ⟨1, 1, 3, .HEURISTIC, 1000003⟩ .SKIP 12345
        [[0], [10], [6], [5]]).entry 4 := by
  decide

/-- C10 (amended): the merge unions the reverse-order graph's level-0
edges into the primary graph and re-prunes through the Neighbor Selector
against the cap `Mmax0`: every merged level-0 list stays within `Mmax0`,
every merged level-0 edge comes from one of the two builds, and levels
≥ 1 are untouched — but connectivity is not guaranteed to be preserved
(it can decrease, as the counterexample shows). -/
theorem merge_unions_and_reprunes (pol : NeighborSelectingPolicy)
    (d : Nat → Nat → Int) (Mmax0 : Nat) (g gr : Graph) (v : Nat) :
    (mergeLevel0 pol d Mmax0 g gr v 0).length ≤ Mmax0 ∧
    (∀ x ∈ mergeLevel0 pol d Mmax0 g gr v 0, x ∈ g v 0 ∨ x ∈ gr v 0) ∧
    (∀ l, 1 ≤ l → mergeLevel0 pol d Mmax0 g gr v l = g v l) := by
  refine ⟨?_, ?_, ?_⟩
  · simp only [mergeLevel0, if_pos rfl]
    exact length_selectNeighbors pol d v Mmax0 _
  · intro x hx
    simp only [mergeLevel0, if_pos rfl] at hx
    have hm := mem_selectNeighbors pol d v Mmax0 _ x hx
    rw [mem_sortRank] at hm
    rcases List.mem_append.mp hm with h | h
    · exact Or.inl h
    · exact Or.inr (List.mem_of_mem_filter h)
  · intro l hl
    simp only [mergeLevel0]
    rw [if_neg (by omega)]

/-- C10 (amended) witness: the merge bound and union provenance at a
concrete pair of adjacency stores. -/
theorem merge_unions_and_reprunes_witness :
    (mergeLevel0 .NAIVE dEx 2 (fun _ _ => [1, 2]) (fun _ _ => [3])
        0 0).length ≤ 2 ∧
    (∀ x ∈ mergeLevel0 .NAIVE dEx 2 (fun _ _ => [1, 2])
        (fun _ _ => [3]) 0 0,
      x ∈ (fun _ _ => ([1, 2] : List Nat)) 0 0 ∨
      x ∈ (fun _ _ => ([3] : List Nat)) 0 0) ∧
    (∀ l, 1 ≤ l →
      mergeLevel0 .NAIVE dEx 2 (fun _ _ => [1, 2]) (fun _ _ => [3]) 0 l =
        (fun _ _ => ([1, 2] : List Nat)) 0 l) :=
  merge_unions_and_reprunes .NAIVE dEx 2 (fun _ _ => [1, 2])
    (fun _ _ => [3]) 0
